import Mathlib

/-!
Verification of the Entity core of the dynamic-graph library.

The data model follows `src/include/dynamic-graph/entity.h`: an `Entity`
holds a name, a signal directory (`std::map<std::string, SignalBase<int> *>`),
a command directory (`std::map<const std::string, command::Command *>`) and a
`Logger`.  `std::map` is modelled as an association list kept strictly sorted
by key, matching the ordered-map semantics of the C++ standard library.
Pointers (`SignalBase<int> *`, `command::Command *`) are modelled as natural
numbers standing for addresses, so that reference identity is equality of
these numbers.  The member functions whose bodies live in `entity.cpp`
(not among the available sources — only the header is) are modelled from the
spec; the inline bodies present in the header (`getName`, `getClassName`,
the logger accessors) are translated directly.
-/

namespace DynGraph

/-- Address of a `SignalBase<int>` object; reference identity is equality. -/
abbrev SigPtr := Nat

/-- Address of a `command::Command` object; reference identity is equality. -/
abbrev CmdPtr := Nat

/-- Error kinds of the spec's error taxonomy (section 7). -/
inductive DgError where
  | DuplicateNameError
  | DuplicateSignalNameError
  | DuplicateCommandNameError
  | SignalNotFoundError
  | CommandNotFoundError
deriving DecidableEq, Repr

/-- Association-list model of `std::map<std::string, α>`: entries sorted
strictly by key. -/
abbrev StrMap (α : Type) := List (String × α)

/-- Key lookup, first match (keys are unique under the sortedness invariant). -/
def mapFind {α : Type} (m : StrMap α) (k : String) : Option α :=
  match m with
  | [] => none
  | (k', v) :: rest => if k' = k then some v else mapFind rest k

/-- `std::map::count(k) != 0`. -/
def mapContains {α : Type} (m : StrMap α) (k : String) : Bool :=
  (mapFind m k).isSome

/-- Ordered insertion, as `std::map` keeps entries sorted by key; an existing
entry under the same key is replaced. -/
def mapInsert {α : Type} (m : StrMap α) (k : String) (v : α) : StrMap α :=
  match m with
  | [] => [(k, v)]
  | (k', v') :: rest =>
    if k < k' then (k, v) :: (k', v') :: rest
    else if k = k' then (k, v) :: rest
    else (k', v') :: mapInsert rest k v

/-- `std::map::erase(k)`: removes the entry with key `k` when present. -/
def mapErase {α : Type} (m : StrMap α) (k : String) : StrMap α :=
  m.filter (fun p => p.1 ≠ k)

/-- Keys in directory order (the order `std::map` iteration produces). -/
def mapKeys {α : Type} (m : StrMap α) : List String :=
  m.map Prod.fst

/-- The `std::map` representation invariant: keys strictly increasing. -/
def MapSorted {α : Type} (m : StrMap α) : Prop :=
  List.Pairwise (fun p q : String × α => p.1 < q.1) m

theorem mapFind_mapInsert_self {α : Type} (m : StrMap α) (k : String) (v : α) :
    mapFind (mapInsert m k v) k = some v := by
  induction m with
  | nil => simp [mapInsert, mapFind]
  | cons p rest ih =>
    obtain ⟨k', v'⟩ := p
    by_cases hlt : k < k'
    · simp [mapInsert, hlt, mapFind]
    · by_cases heq : k = k'
      · simp [mapInsert, hlt, heq, mapFind]
      · have hne : ¬ k' = k := fun h => heq h.symm
        simp [mapInsert, hlt, heq, mapFind, hne, ih]

theorem mapFind_mapInsert_ne {α : Type} (m : StrMap α) (k k' : String) (v : α)
    (h : k ≠ k') : mapFind (mapInsert m k v) k' = mapFind m k' := by
  induction m with
  | nil =>
    rw [mapInsert]
    simp only [mapFind]
    rw [if_neg h]
  | cons p rest ih =>
    obtain ⟨k₀, v₀⟩ := p
    by_cases hlt : k < k₀
    · rw [mapInsert, if_pos hlt]
      simp only [mapFind]
      rw [if_neg h]
    · by_cases heq : k = k₀
      · rw [mapInsert, if_neg hlt, if_pos heq]
        have hk₀ : ¬ k₀ = k' := fun hh => h (heq.trans hh)
        simp only [mapFind]
        rw [if_neg h, if_neg hk₀]
      · rw [mapInsert, if_neg hlt, if_neg heq]
        simp only [mapFind]
        by_cases h₀ : k₀ = k'
        · rw [if_pos h₀, if_pos h₀]
        · rw [if_neg h₀, if_neg h₀, ih]

theorem mapErase_cons_self {α : Type} (k : String) (v : α) (rest : StrMap α) :
    mapErase ((k, v) :: rest) k = mapErase rest k := by
  simp [mapErase, List.filter_cons]

theorem mapErase_cons_ne {α : Type} (k k₀ : String) (v₀ : α) (rest : StrMap α)
    (h : k₀ ≠ k) : mapErase ((k₀, v₀) :: rest) k = (k₀, v₀) :: mapErase rest k := by
  simp [mapErase, List.filter_cons, h]

theorem mapFind_mapErase_self {α : Type} (m : StrMap α) (k : String) :
    mapFind (mapErase m k) k = none := by
  induction m with
  | nil => rfl
  | cons p rest ih =>
    obtain ⟨k₀, v₀⟩ := p
    by_cases h₀ : k₀ = k
    · rw [h₀, mapErase_cons_self]
      exact ih
    · rw [mapErase_cons_ne k k₀ v₀ rest h₀]
      simp only [mapFind]
      rw [if_neg h₀, ih]

theorem mapFind_mapErase_ne {α : Type} (m : StrMap α) (k k' : String)
    (h : k ≠ k') : mapFind (mapErase m k) k' = mapFind m k' := by
  induction m with
  | nil => rfl
  | cons p rest ih =>
    obtain ⟨k₀, v₀⟩ := p
    by_cases h₀ : k₀ = k
    · rw [h₀, mapErase_cons_self]
      rw [ih]
      simp only [mapFind]
      rw [if_neg h]
    · rw [mapErase_cons_ne k k₀ v₀ rest h₀]
      simp only [mapFind]
      by_cases h₁ : k₀ = k'
      · rw [if_pos h₁, if_pos h₁]
      · rw [if_neg h₁, if_neg h₁, ih]

theorem mapErase_of_not_contains {α : Type} (m : StrMap α) (k : String)
    (h : mapContains m k = false) : mapErase m k = m := by
  induction m with
  | nil => rfl
  | cons p rest ih =>
    obtain ⟨k', v'⟩ := p
    by_cases hk : k' = k
    · exfalso
      rw [mapContains] at h
      simp only [mapFind] at h
      rw [if_pos hk] at h
      simp at h
    · have hrest : mapContains rest k = false := by
        rw [mapContains] at h ⊢
        simp only [mapFind] at h
        rwa [if_neg hk] at h
      rw [mapErase_cons_ne k k' v' rest hk, ih hrest]

theorem mapErase_mapErase {α : Type} (m : StrMap α) (k : String) :
    mapErase (mapErase m k) k = mapErase m k := by
  simp [mapErase, List.filter_filter]

theorem mapContains_mapErase_self {α : Type} (m : StrMap α) (k : String) :
    mapContains (mapErase m k) k = false := by
  simp [mapContains, mapFind_mapErase_self]

theorem mem_mapInsert_key {α : Type} (m : StrMap α) (k : String) (v : α)
    (q : String × α) (hq : q ∈ mapInsert m k v) : q.1 = k ∨ q ∈ m := by
  induction m with
  | nil =>
    simp [mapInsert] at hq
    simp [hq]
  | cons p rest ih =>
    obtain ⟨k', v'⟩ := p
    by_cases hlt : k < k'
    · simp [mapInsert, hlt] at hq
      rcases hq with hq | hq | hq
      · simp [hq]
      · simp [hq]
      · exact Or.inr (List.mem_cons_of_mem _ hq)
    · by_cases heq : k = k'
      · simp [mapInsert, hlt, heq] at hq
        rcases hq with hq | hq
        · simp [hq, heq]
        · exact Or.inr (List.mem_cons_of_mem _ hq)
      · simp [mapInsert, hlt, heq] at hq
        rcases hq with hq | hq
        · exact Or.inr (by simp [hq])
        · rcases ih hq with h₁ | h₁
          · exact Or.inl h₁
          · exact Or.inr (List.mem_cons_of_mem _ h₁)

theorem mapSorted_mapInsert {α : Type} (m : StrMap α) (k : String) (v : α)
    (h : MapSorted m) : MapSorted (mapInsert m k v) := by
  induction m with
  | nil =>
    rw [mapInsert]
    exact List.pairwise_singleton _ _
  | cons p rest ih =>
    obtain ⟨k', v'⟩ := p
    rw [MapSorted, List.pairwise_cons] at h
    obtain ⟨hhead, htail⟩ := h
    by_cases hlt : k < k'
    · rw [MapSorted, mapInsert, if_pos hlt]
      refine List.Pairwise.cons ?_ (List.Pairwise.cons hhead htail)
      intro q hq
      rcases List.mem_cons.mp hq with hq | hq
      · rw [hq]
        exact hlt
      · exact lt_trans hlt (hhead q hq)
    · by_cases heq : k = k'
      · rw [MapSorted, mapInsert, if_neg hlt, if_pos heq]
        refine List.Pairwise.cons ?_ htail
        intro q hq
        rw [show (k, v).1 = k from rfl, heq]
        exact hhead q hq
      · have hgt : k' < k := by
          rcases lt_trichotomy k k' with h₁ | h₁ | h₁
          · exact absurd h₁ hlt
          · exact absurd h₁ heq
          · exact h₁
        rw [MapSorted, mapInsert, if_neg hlt, if_neg heq]
        refine List.Pairwise.cons ?_ (ih htail)
        intro q hq
        rcases mem_mapInsert_key rest k v q hq with hq₁ | hq₁
        · rw [show (k', v').1 = k' from rfl, hq₁]
          exact hgt
        · exact hhead q hq₁

theorem mapSorted_mapErase {α : Type} (m : StrMap α) (k : String)
    (h : MapSorted m) : MapSorted (mapErase m k) := by
  exact List.Pairwise.filter _ h

/-- Modelled from the spec: the `Logger` contract of `logger.h` (not among the
available sources).  Only the gated state needed by the Entity accessors is
kept: verbosity level, time sample and stream print period (section 4.5:
"simple gated-state mutators with no side effects beyond changing future
throttling behavior").  The C++ `double` parameters are modelled as rationals;
no claim depends on floating-point rounding. -/
structure Logger where
  verbosity : Nat
  timeSample : ℚ
  streamPrintPeriod : ℚ
deriving DecidableEq, Repr

/-- Modelled from the spec: `Logger::setVerbosity`. -/
def Logger.setVerbosity (l : Logger) (lv : Nat) : Logger :=
  { l with verbosity := lv }

/-- Modelled from the spec: `Logger::getVerbosity`. -/
def Logger.getVerbosity (l : Logger) : Nat :=
  l.verbosity

/-- Modelled from the spec: `Logger::setTimeSample`; the `bool` result reports
acceptance of the new sample (positive periods accepted). -/
def Logger.setTimeSample (l : Logger) (t : ℚ) : Bool × Logger :=
  if 0 < t then (true, { l with timeSample := t }) else (false, l)

/-- Modelled from the spec: `Logger::getTimeSample`. -/
def Logger.getTimeSample (l : Logger) : ℚ :=
  l.timeSample

/-- Modelled from the spec: `Logger::setStreamPrintPeriod`. -/
def Logger.setStreamPrintPeriod (l : Logger) (t : ℚ) : Bool × Logger :=
  if 0 < t then (true, { l with streamPrintPeriod := t }) else (false, l)

/-- Modelled from the spec: `Logger::getStreamPrintPeriod`. -/
def Logger.getStreamPrintPeriod (l : Logger) : ℚ :=
  l.streamPrintPeriod

/-- Default-constructed logger, as the `Logger logger_` member of `Entity`. -/
def Logger.init : Logger :=
  { verbosity := 0, timeSample := 0, streamPrintPeriod := 0 }

/-- The `Entity` state of `entity.h` lines 128-131: `std::string name`,
`SignalMap signalMap`, `CommandMap_t commandMap`, `Logger logger_`. -/
structure Entity where
  name : String
  signalMap : StrMap SigPtr
  commandMap : StrMap CmdPtr
  logger_ : Logger
deriving DecidableEq, Repr

/-- A `SignalBase<int>` seen through the registration interface: its declared
local name and its address. -/
structure SignalRef where
  shortName : String
  ptr : SigPtr
deriving DecidableEq, Repr

/-- `entity.h` line 61: `const std::string &getName() const { return name; }`. -/
def Entity.getName (e : Entity) : String :=
  e.name

/-- `entity.h` lines 62-65: the base-class `getClassName` returns a
function-local `static std::string ret("Entity")`.  The `call` argument
indexes successive calls during the process lifetime; the static local makes
the returned value independent of it. -/
def Entity.getClassName (_e : Entity) (_call : Nat) : String :=
  "Entity"

/-- Modelled from the spec: `Entity::hasSignal` (`entity.cpp` is not among
the sources).  Section 4.2: "pure query, no side effects". -/
def Entity.hasSignal (e : Entity) (signame : String) : Bool :=
  mapContains e.signalMap signame

/-- Modelled from the spec: `Entity::getSignal` (`entity.cpp` is not among
the sources).  Section 4.2: "returns a reference to the signal; fails with
`SignalNotFoundError` if absent". -/
def Entity.getSignal (e : Entity) (signalName : String) : Except DgError SigPtr :=
  match mapFind e.signalMap signalName with
  | some p => .ok p
  | none => .error .SignalNotFoundError

/-- Modelled from the spec: registration of one signal by
`Entity::signalRegistration` (`entity.cpp` is not among the sources).
Section 4.2: "inserts `signal` under its own declared local name; fails with
`DuplicateSignalNameError` if that name is already present in this entity".
The pair returns the outcome together with the (possibly updated) entity. -/
def Entity.registerSignalOne (e : Entity) (s : SignalRef) :
    Except DgError Unit × Entity :=
  if mapContains e.signalMap s.shortName then
    (.error .DuplicateSignalNameError, e)
  else
    (.ok (), { e with signalMap := mapInsert e.signalMap s.shortName s.ptr })

/-- Modelled from the spec: `Entity::signalRegistration` takes a
`SignalArray<int>` (`entity.h` line 125) and registers each signal in turn,
stopping at the first failure. -/
def Entity.signalRegistration (e : Entity) (sigs : List SignalRef) :
    Except DgError Unit × Entity :=
  match sigs with
  | [] => (.ok (), e)
  | s :: rest =>
    match e.registerSignalOne s with
    | (.ok _, e') => e'.signalRegistration rest
    | (.error err, e') => (.error err, e')

/-- Modelled from the spec: `Entity::signalDeregistration` (`entity.cpp` is
not among the sources).  Section 4.2: "removes the entry if present; a no-op
(not an error) if absent, to make teardown idempotent". -/
def Entity.signalDeregistration (e : Entity) (n : String) : Entity :=
  { e with signalMap := mapErase e.signalMap n }

/-- Modelled from the spec: `Entity::addCommand` (`entity.cpp` is not among
the sources).  Section 4.3: "Entity takes ownership of `command`; fails with
`DuplicateCommandNameError` if `name` already registered on this entity". -/
def Entity.addCommand (e : Entity) (n : String) (c : CmdPtr) :
    Except DgError Unit × Entity :=
  if mapContains e.commandMap n then
    (.error .DuplicateCommandNameError, e)
  else
    (.ok (), { e with commandMap := mapInsert e.commandMap n c })

/-- Modelled from the spec: `Entity::getNewStyleCommand` (`entity.cpp` is not
among the sources).  Section 4.3: "fails with `CommandNotFoundError` if
absent". -/
def Entity.getNewStyleCommand (e : Entity) (cmdName : String) :
    Except DgError CmdPtr :=
  match mapFind e.commandMap cmdName with
  | some c => .ok c
  | none => .error .CommandNotFoundError

/-- Modelled from the spec: `Entity::getNewStyleCommandMap` returns the
directory by value — the header (`entity.h` line 81) declares the return type
`CommandMap_t`, a copy. -/
def Entity.getNewStyleCommandMap (e : Entity) : StrMap CmdPtr :=
  e.commandMap

/-- Modelled from the spec: `Entity::getSignalMap` returns the directory by
value — the header (`entity.h` line 84) declares the return type `SignalMap`
on a `const` member, a copy.  Section 4.2: "returns a read-only snapshot
(copy of the mapping)". -/
def Entity.getSignalMap (e : Entity) : StrMap SigPtr :=
  e.signalMap

/-- Modelled from the spec: `Entity::getCommandList` (`entity.cpp` is not
among the sources).  Sections 4.3 and 6: "newline-separated list of command
names bound to the entity", one name per line, in directory order. -/
def Entity.getCommandList (e : Entity) : String :=
  String.intercalate "\n" (mapKeys e.commandMap)

/-- Modelled from the spec: the list of names `Entity::writeCompletionList`
emits (`entity.cpp` is not among the sources).  Section 4.4: "every name a
shell-style completion engine should offer for this entity (its name, its
signal names, its command names), in a stable, deterministic order". -/
def Entity.completionItems (e : Entity) : List String :=
  e.name :: (mapKeys e.signalMap ++ mapKeys e.commandMap)

/-- Modelled from the spec: `Entity::writeCompletionList` writes the
newline-separated completion items into the output stream `os`, modelled as
the string accumulated in the sink so far. -/
def Entity.writeCompletionList (e : Entity) (os : String) : String :=
  os ++ String.intercalate "\n" e.completionItems

/-- `entity.h` line 98: `setLoggerVerbosityLevel` delegates to
`logger_.setVerbosity`. -/
def Entity.setLoggerVerbosityLevel (e : Entity) (lv : Nat) : Entity :=
  { e with logger_ := e.logger_.setVerbosity lv }

/-- `entity.h` line 101: `getLoggerVerbosityLevel` delegates to
`logger_.getVerbosity`. -/
def Entity.getLoggerVerbosityLevel (e : Entity) : Nat :=
  e.logger_.getVerbosity

/-- `entity.h` line 104: `setTimeSample` delegates to `logger_.setTimeSample`
and forwards its `bool` result. -/
def Entity.setTimeSample (e : Entity) (t : ℚ) : Bool × Entity :=
  let r := e.logger_.setTimeSample t
  (r.1, { e with logger_ := r.2 })

/-- `entity.h` lines 110-112: `setStreamPrintPeriod` delegates to
`logger_.setStreamPrintPeriod` and forwards its `bool` result. -/
def Entity.setStreamPrintPeriod (e : Entity) (t : ℚ) : Bool × Entity :=
  let r := e.logger_.setStreamPrintPeriod t
  (r.1, { e with logger_ := r.2 })

/-- A freshly constructed entity before registry insertion: the given name,
empty signal and command directories, default logger (spec section 4.1:
"a live Entity with empty signal and command directories"). -/
def Entity.fresh (nm : String) : Entity :=
  { name := nm, signalMap := [], commandMap := [], logger_ := Logger.init }

/-- The process-wide Entity Registry: unique names to live entities
(spec section 2). -/
abbrev Registry := StrMap Entity

/-- Modelled from the spec: `construct(name)` — `Entity::Entity` plus
`Entity::entityRegistration` (`entity.cpp` is not among the sources).
Section 4.1: "fails with `DuplicateNameError` if `name` already exists in
the Registry; otherwise inserts into the Registry and returns a live Entity
with empty signal and command directories".  The registry is threaded
explicitly; on failure it is returned unchanged. -/
def construct (nm : String) (reg : Registry) :
    Except DgError Entity × Registry :=
  if mapContains reg nm then
    (.error .DuplicateNameError, reg)
  else
    let e := Entity.fresh nm
    (.ok e, mapInsert reg nm e)

/-- One structural mutation a client may apply to a map value it holds
(the copy handed out by `getSignalMap` / `getNewStyleCommandMap`). -/
inductive MapOp (α : Type) where
  | insertOp (k : String) (v : α)
  | eraseOp (k : String)

/-- Effect of a client-side map mutation on the client's copy. -/
def applyMapOp {α : Type} (m : StrMap α) : MapOp α → StrMap α
  | .insertOp k v => mapInsert m k v
  | .eraseOp k => mapErase m k

/-- The world after a client took a snapshot of one of an entity's
directories: the owning entity and the client-held copy. -/
structure SnapshotWorld (α : Type) where
  owner : Entity
  snapshot : StrMap α

/-- Calling `getSignalMap` hands the client a copy of the signal directory. -/
def takeSignalSnapshot (e : Entity) : SnapshotWorld SigPtr :=
  { owner := e, snapshot := e.getSignalMap }

/-- Calling `getNewStyleCommandMap` hands the client a copy of the command
directory. -/
def takeCommandSnapshot (e : Entity) : SnapshotWorld CmdPtr :=
  { owner := e, snapshot := e.getNewStyleCommandMap }

/-- The client mutates its own copy; the owner is untouched (value
semantics of the returned `std::map`). -/
def clientStep {α : Type} (w : SnapshotWorld α) (op : MapOp α) : SnapshotWorld α :=
  { w with snapshot := applyMapOp w.snapshot op }

theorem clientStep_foldl {α : Type} (w : SnapshotWorld α) (ops : List (MapOp α)) :
    (ops.foldl clientStep w).owner = w.owner ∧
    (ops.foldl clientStep w).snapshot = ops.foldl applyMapOp w.snapshot := by
  induction ops generalizing w with
  | nil => exact ⟨rfl, rfl⟩
  | cons op rest ih =>
    simp only [List.foldl_cons]
    exact ⟨(ih (clientStep w op)).1, (ih (clientStep w op)).2⟩

/-- The operations an entity supports between construction and destruction
(`entity.h` public and protected interface): signal and command
registration and deregistration, lookups, display, and the logger
mutators. -/
inductive EntityOp where
  | regSignalOp (s : SignalRef)
  | deregSignalOp (n : String)
  | addCommandOp (n : String) (c : CmdPtr)
  | getSignalOp (n : String)
  | hasSignalOp (n : String)
  | getNewStyleCommandOp (n : String)
  | displayOp
  | setVerbosityOp (lv : Nat)
  | setTimeSampleOp (t : ℚ)
  | setStreamPrintPeriodOp (t : ℚ)

/-- State effect of each entity operation.  Lookups (`getSignal`,
`hasSignal`, `getNewStyleCommand`) and `display` read but do not modify the
entity (`display` and `hasSignal` are `const` members in `entity.h`). -/
def Entity.applyOp (e : Entity) : EntityOp → Entity
  | .regSignalOp s => (e.registerSignalOne s).2
  | .deregSignalOp n => e.signalDeregistration n
  | .addCommandOp n c => (e.addCommand n c).2
  | .getSignalOp _ => e
  | .hasSignalOp _ => e
  | .getNewStyleCommandOp _ => e
  | .displayOp => e
  | .setVerbosityOp lv => e.setLoggerVerbosityLevel lv
  | .setTimeSampleOp t => (e.setTimeSample t).2
  | .setStreamPrintPeriodOp t => (e.setStreamPrintPeriod t).2

/-- A whole history of operations applied in sequence. -/
def Entity.applyOps (e : Entity) (ops : List EntityOp) : Entity :=
  ops.foldl Entity.applyOp e

theorem Entity.applyOp_name (e : Entity) (op : EntityOp) :
    (e.applyOp op).name = e.name := by
  cases op with
  | regSignalOp s =>
    show (e.registerSignalOne s).2.name = e.name
    rw [Entity.registerSignalOne]
    by_cases hc : mapContains e.signalMap s.shortName
    · rw [if_pos hc]
    · rw [if_neg hc]
  | deregSignalOp n => rfl
  | addCommandOp n c =>
    show (e.addCommand n c).2.name = e.name
    rw [Entity.addCommand]
    by_cases hc : mapContains e.commandMap n
    · rw [if_pos hc]
    · rw [if_neg hc]
  | getSignalOp n => rfl
  | hasSignalOp n => rfl
  | getNewStyleCommandOp n => rfl
  | displayOp => rfl
  | setVerbosityOp lv => rfl
  | setTimeSampleOp t => rfl
  | setStreamPrintPeriodOp t => rfl

theorem Entity.applyOps_name (e : Entity) (ops : List EntityOp) :
    (e.applyOps ops).name = e.name := by
  induction ops generalizing e with
  | nil => rfl
  | cons op rest ih =>
    show ((e.applyOp op).applyOps rest).name = e.name
    rw [ih (e.applyOp op), Entity.applyOp_name]

/-- Representation invariant of an entity: both directories are sorted
`std::map`s. -/
def Entity.WF (e : Entity) : Prop :=
  MapSorted e.signalMap ∧ MapSorted e.commandMap

instance {α : Type} (m : StrMap α) : Decidable (MapSorted m) :=
  inferInstanceAs (Decidable (List.Pairwise (fun p q : String × α => p.1 < q.1) m))

instance (e : Entity) : Decidable e.WF :=
  inferInstanceAs (Decidable (MapSorted e.signalMap ∧ MapSorted e.commandMap))

theorem Entity.WF_fresh (nm : String) : (Entity.fresh nm).WF :=
  ⟨List.Pairwise.nil, List.Pairwise.nil⟩

theorem Entity.WF_applyOp (e : Entity) (op : EntityOp) (h : e.WF) :
    (e.applyOp op).WF := by
  obtain ⟨hs, hc⟩ := h
  cases op with
  | regSignalOp s =>
    show (e.registerSignalOne s).2.WF
    rw [Entity.registerSignalOne]
    by_cases hdup : mapContains e.signalMap s.shortName
    · rw [if_pos hdup]
      exact ⟨hs, hc⟩
    · rw [if_neg hdup]
      exact ⟨mapSorted_mapInsert _ _ _ hs, hc⟩
  | deregSignalOp n => exact ⟨mapSorted_mapErase _ _ hs, hc⟩
  | addCommandOp n c =>
    show (e.addCommand n c).2.WF
    rw [Entity.addCommand]
    by_cases hdup : mapContains e.commandMap n
    · rw [if_pos hdup]
      exact ⟨hs, hc⟩
    · rw [if_neg hdup]
      exact ⟨hs, mapSorted_mapInsert _ _ _ hc⟩
  | getSignalOp n => exact ⟨hs, hc⟩
  | hasSignalOp n => exact ⟨hs, hc⟩
  | getNewStyleCommandOp n => exact ⟨hs, hc⟩
  | displayOp => exact ⟨hs, hc⟩
  | setVerbosityOp lv => exact ⟨hs, hc⟩
  | setTimeSampleOp t => exact ⟨hs, hc⟩
  | setStreamPrintPeriodOp t => exact ⟨hs, hc⟩

theorem Entity.WF_applyOps (e : Entity) (ops : List EntityOp) (h : e.WF) :
    (e.applyOps ops).WF := by
  induction ops generalizing e with
  | nil => exact h
  | cons op rest ih => exact ih (e.applyOp op) (Entity.WF_applyOp e op h)

theorem mapContains_iff_mem_keys {α : Type} (m : StrMap α) (k : String) :
    mapContains m k = true ↔ k ∈ mapKeys m := by
  induction m with
  | nil =>
    constructor
    · intro h
      exact absurd h (by rw [mapContains, mapFind]; simp)
    · intro h
      exact absurd h (by rw [mapKeys]; simp)
  | cons p rest ih =>
    obtain ⟨k₀, v₀⟩ := p
    by_cases h : k₀ = k
    · constructor
      · intro _
        rw [mapKeys, List.map_cons, ← h]
        exact List.mem_cons_self _ _
      · intro _
        rw [mapContains]
        simp only [mapFind]
        rw [if_pos h]
        rfl
    · have hstep : mapContains ((k₀, v₀) :: rest) k = mapContains rest k := by
        rw [mapContains, mapContains]
        simp only [mapFind]
        rw [if_neg h]
      rw [hstep, mapKeys, List.map_cons, List.mem_cons]
      rw [mapKeys] at ih
      constructor
      · intro hk
        exact Or.inr (ih.mp hk)
      · intro hk
        rcases hk with hk | hk
        · exact absurd hk.symm h
        · exact ih.mpr hk

theorem mapSorted_keys {α : Type} (m : StrMap α) (h : MapSorted m) :
    List.Pairwise (fun a b : String => a < b) (mapKeys m) := by
  rw [mapKeys]
  exact List.Pairwise.map Prod.fst (fun a b hab => hab) h

theorem mapFind_eq_none_of_not_contains {α : Type} (m : StrMap α) (k : String)
    (h : mapContains m k = false) : mapFind m k = none := by
  rw [mapContains] at h
  cases hf : mapFind m k with
  | none => rfl
  | some v =>
    rw [hf] at h
    simp at h

/-- C1: for every name already present in the Entity Registry, constructing a
second Entity with that same name fails with `DuplicateNameError`, and the
failed construction returns the Registry unchanged — it still contains only
the entities it held before, in particular only the first entity with that
name. -/
theorem C1_construct_duplicate (reg : Registry) (nm : String)
    (h : mapContains reg nm = true) :
    construct nm reg = (.error .DuplicateNameError, reg) := by
  rw [construct, if_pos h]

theorem C1_construct_duplicate_witness :
    mapContains (construct "a" []).2 "a" = true ∧
    construct "a" (construct "a" []).2 =
      (.error .DuplicateNameError, (construct "a" []).2) :=
  ⟨by decide, C1_construct_duplicate (construct "a" []).2 "a" (by decide)⟩

/-- C2: after a successful registration of a signal, `getSignal` under the
signal's name returns exactly the registered reference (the same pointer);
and after `signalDeregistration` of a name, `hasSignal` of that name is false
and `getSignal` of it fails with `SignalNotFoundError`. -/
theorem C2_register_lookup_deregister (e : Entity) (s : SignalRef) (n : String)
    (e₁ : Entity) (h : e.registerSignalOne s = (.ok (), e₁)) :
    e₁.getSignal s.shortName = .ok s.ptr ∧
    (e.signalDeregistration n).hasSignal n = false ∧
    (e.signalDeregistration n).getSignal n = .error .SignalNotFoundError := by
  refine ⟨?_, ?_, ?_⟩
  · rw [Entity.registerSignalOne] at h
    by_cases hc : mapContains e.signalMap s.shortName
    · rw [if_pos hc] at h
      exact absurd (congrArg Prod.fst h) (by simp)
    · rw [if_neg hc] at h
      have he : ({ e with signalMap := mapInsert e.signalMap s.shortName s.ptr } :
          Entity) = e₁ := congrArg Prod.snd h
      rw [← he, Entity.getSignal]
      show (match mapFind (mapInsert e.signalMap s.shortName s.ptr) s.shortName with
        | some p => Except.ok p
        | none => Except.error DgError.SignalNotFoundError) = Except.ok s.ptr
      rw [mapFind_mapInsert_self]
  · rw [Entity.hasSignal]
    exact mapContains_mapErase_self e.signalMap n
  · rw [Entity.getSignal]
    show (match mapFind (mapErase e.signalMap n) n with
      | some p => Except.ok p
      | none => Except.error DgError.SignalNotFoundError) =
        Except.error DgError.SignalNotFoundError
    rw [mapFind_mapErase_self]

theorem C2_register_lookup_deregister_witness :
    (Entity.fresh "a").registerSignalOne ⟨"s", 7⟩ =
      (.ok (), { Entity.fresh "a" with signalMap := [("s", 7)] }) ∧
    ({ Entity.fresh "a" with signalMap := [("s", 7)] } : Entity).getSignal "s" =
      .ok 7 ∧
    ((Entity.fresh "a").signalDeregistration "s").hasSignal "s" = false ∧
    ((Entity.fresh "a").signalDeregistration "s").getSignal "s" =
      .error .SignalNotFoundError := by
  have h : (Entity.fresh "a").registerSignalOne ⟨"s", 7⟩ =
      (.ok (), { Entity.fresh "a" with signalMap := [("s", 7)] }) := rfl
  have hc := C2_register_lookup_deregister (Entity.fresh "a") ⟨"s", 7⟩ "s" _ h
  exact ⟨h, hc.1, hc.2.1, hc.2.2⟩

/-- C3: for a name absent from the signal directory, `signalDeregistration`
is a no-op — it raises no error (it is total) and leaves the entity
unchanged; and for any entity, deregistering the same name twice is
equivalent to deregistering it once (the second call changes nothing). -/
theorem C3_deregister_idempotent (e : Entity) (n : String)
    (h : e.hasSignal n = false) :
    e.signalDeregistration n = e ∧
    ∀ e' : Entity,
      (e'.signalDeregistration n).signalDeregistration n =
        e'.signalDeregistration n := by
  constructor
  · rw [Entity.hasSignal] at h
    show ({ e with signalMap := mapErase e.signalMap n } : Entity) = e
    rw [mapErase_of_not_contains e.signalMap n h]
  · intro e'
    show ({ { e' with signalMap := mapErase e'.signalMap n } with
        signalMap := mapErase (mapErase e'.signalMap n) n } : Entity) =
      { e' with signalMap := mapErase e'.signalMap n }
    rw [mapErase_mapErase]

theorem C3_deregister_idempotent_witness :
    (Entity.fresh "a").hasSignal "s" = false ∧
    (Entity.fresh "a").signalDeregistration "s" = Entity.fresh "a" ∧
    ∀ e' : Entity,
      (e'.signalDeregistration "s").signalDeregistration "s" =
        e'.signalDeregistration "s" := by
  have h : (Entity.fresh "a").hasSignal "s" = false := rfl
  have hc := C3_deregister_idempotent (Entity.fresh "a") "s" h
  exact ⟨h, hc.1, hc.2⟩

/-- C4: `addCommand` under a name already registered on this entity fails
with `DuplicateCommandNameError` and leaves the entity (in particular its
command directory) unchanged; `getNewStyleCommand` under a name not
registered on this entity fails with `CommandNotFoundError`. -/
theorem C4_command_errors (e : Entity) (n : String) (c : CmdPtr) :
    (mapContains e.commandMap n = true →
      e.addCommand n c = (.error .DuplicateCommandNameError, e)) ∧
    (mapContains e.commandMap n = false →
      e.getNewStyleCommand n = .error .CommandNotFoundError) := by
  constructor
  · intro h
    rw [Entity.addCommand, if_pos h]
  · intro h
    rw [Entity.getNewStyleCommand]
    show (match mapFind e.commandMap n with
      | some p => Except.ok p
      | none => Except.error DgError.CommandNotFoundError) =
        Except.error DgError.CommandNotFoundError
    rw [mapFind_eq_none_of_not_contains e.commandMap n h]

theorem C4_command_errors_witness :
    (((Entity.fresh "a").addCommand "foo" 3).2.addCommand "foo" 4 =
      (.error .DuplicateCommandNameError, ((Entity.fresh "a").addCommand "foo" 3).2)) ∧
    (Entity.fresh "a").getNewStyleCommand "foo" = .error .CommandNotFoundError := by
  have h₁ : mapContains ((Entity.fresh "a").addCommand "foo" 3).2.commandMap
      "foo" = true := rfl
  have h₂ : mapContains (Entity.fresh "a").commandMap "foo" = false := rfl
  exact ⟨(C4_command_errors ((Entity.fresh "a").addCommand "foo" 3).2 "foo" 4).1 h₁,
    (C4_command_errors (Entity.fresh "a") "foo" 3).2 h₂⟩

/-- Concrete entity used to instantiate the completion-list theorem: two
signals and one command. -/
def sampleE5 : Entity :=
  { name := "n", signalMap := [("a", 1), ("b", 2)], commandMap := [("c", 3)],
    logger_ := Logger.init }

theorem sampleE5_WF : sampleE5.WF := by
  constructor
  · refine List.pairwise_cons.mpr ⟨?_, List.pairwise_singleton _ _⟩
    intro q hq
    rw [List.mem_singleton] at hq
    rw [hq]
    show "a" < "b"
    rw [String.lt_iff_toList_lt]
    decide
  · exact List.pairwise_singleton _ _

/-- C5: `writeCompletionList` appends to the sink the newline-separated list
consisting of the entity's own name, then its signal names, then its command
names; the name segments are in strictly increasing (hence stable and
deterministic) order, and they list exactly the registered names. -/
theorem C5_completion_list (e : Entity) (os : String) (h : e.WF) :
    e.writeCompletionList os =
      os ++ String.intercalate "\n"
        (e.name :: (mapKeys e.signalMap ++ mapKeys e.commandMap)) ∧
    List.Pairwise (fun a b : String => a < b) (mapKeys e.signalMap) ∧
    List.Pairwise (fun a b : String => a < b) (mapKeys e.commandMap) ∧
    (∀ n, n ∈ mapKeys e.signalMap ↔ e.hasSignal n = true) ∧
    (∀ n, n ∈ mapKeys e.commandMap ↔ mapContains e.commandMap n = true) := by
  refine ⟨rfl, mapSorted_keys _ h.1, mapSorted_keys _ h.2, ?_, ?_⟩
  · intro n
    rw [Entity.hasSignal]
    exact (mapContains_iff_mem_keys e.signalMap n).symm
  · intro n
    exact (mapContains_iff_mem_keys e.commandMap n).symm

theorem C5_completion_list_witness :
    sampleE5.WF ∧
    (sampleE5.writeCompletionList "x" =
      "x" ++ String.intercalate "\n"
        (sampleE5.name :: (mapKeys sampleE5.signalMap ++ mapKeys sampleE5.commandMap)) ∧
    List.Pairwise (fun a b : String => a < b) (mapKeys sampleE5.signalMap) ∧
    List.Pairwise (fun a b : String => a < b) (mapKeys sampleE5.commandMap) ∧
    (∀ n, n ∈ mapKeys sampleE5.signalMap ↔ sampleE5.hasSignal n = true) ∧
    (∀ n, n ∈ mapKeys sampleE5.commandMap ↔
      mapContains sampleE5.commandMap n = true)) :=
  ⟨sampleE5_WF, C5_completion_list sampleE5 "x" sampleE5_WF⟩

/-- C6: `getCommandList` is the newline-separated listing of exactly the
command names currently bound to the entity, one name per line, in strictly
increasing directory order. -/
theorem C6_command_list (e : Entity) (h : e.WF) :
    e.getCommandList = String.intercalate "\n" (mapKeys e.commandMap) ∧
    List.Pairwise (fun a b : String => a < b) (mapKeys e.commandMap) ∧
    ∀ n, n ∈ mapKeys e.commandMap ↔ mapContains e.commandMap n = true := by
  refine ⟨rfl, mapSorted_keys _ h.2, ?_⟩
  intro n
  exact (mapContains_iff_mem_keys e.commandMap n).symm

/-- Concrete entity used to instantiate the command-list theorem. -/
def sampleE6 : Entity :=
  { name := "m", signalMap := [], commandMap := [("cmd", 9)],
    logger_ := Logger.init }

theorem sampleE6_WF : sampleE6.WF :=
  ⟨List.Pairwise.nil, List.pairwise_singleton _ _⟩

theorem C6_command_list_witness :
    sampleE6.WF ∧
    (sampleE6.getCommandList =
      String.intercalate "\n" (mapKeys sampleE6.commandMap) ∧
    List.Pairwise (fun a b : String => a < b) (mapKeys sampleE6.commandMap) ∧
    ∀ n, n ∈ mapKeys sampleE6.commandMap ↔
      mapContains sampleE6.commandMap n = true) :=
  ⟨sampleE6_WF, C6_command_list sampleE6 sampleE6_WF⟩

/-- C7: the base-class `getClassName` returns the fixed sentinel string
"Entity", and the returned value is the same on every call (the `call`
argument indexes calls during the process lifetime) and for every
instance. -/
theorem C7_getClassName_constant (e : Entity) (c : Nat) :
    e.getClassName c = "Entity" ∧
    ∀ (e' : Entity) (c' : Nat), e.getClassName c = e'.getClassName c' :=
  ⟨rfl, fun _ _ => rfl⟩

/-- C8: `getSignalMap` returns a copy equal to the current signal directory,
and any sequence of insertions and erasures a client applies to the returned
copy leaves the entity itself (in particular its signal directory) unchanged,
while the copy evolves exactly as the mutations prescribe. -/
theorem C8_signal_map_snapshot (e : Entity) (ops : List (MapOp SigPtr)) :
    e.getSignalMap = e.signalMap ∧
    (ops.foldl clientStep (takeSignalSnapshot e)).owner = e ∧
    (ops.foldl clientStep (takeSignalSnapshot e)).snapshot =
      ops.foldl applyMapOp e.getSignalMap :=
  ⟨rfl, (clientStep_foldl (takeSignalSnapshot e) ops).1,
    (clientStep_foldl (takeSignalSnapshot e) ops).2⟩

/-- C9: the name assigned at construction is immutable — after any sequence
of operations (signal and command registration and deregistration, lookups,
display, logger mutators), `getName` still returns the exact string passed
to the constructor. -/
theorem C9_name_immutable (nm : String) (ops : List EntityOp) :
    ((Entity.fresh nm).applyOps ops).getName = nm := by
  rw [Entity.getName, Entity.applyOps_name]
  rfl

/-- C10: `getNewStyleCommandMap` returns the command directory by value: the
copy holds exactly the entity's (name, command-pointer) entries — the same
pointers, referring to the entity-owned `Command` objects — and any sequence
of insertions and erasures applied to the copy leaves the entity itself
unchanged, while the copy evolves exactly as the mutations prescribe. -/
theorem C10_command_map_copy (e : Entity) (ops : List (MapOp CmdPtr)) :
    (∀ (n : String) (p : CmdPtr),
      (n, p) ∈ e.getNewStyleCommandMap ↔ (n, p) ∈ e.commandMap) ∧
    (ops.foldl clientStep (takeCommandSnapshot e)).owner = e ∧
    (ops.foldl clientStep (takeCommandSnapshot e)).snapshot =
      ops.foldl applyMapOp e.getNewStyleCommandMap :=
  ⟨fun _ _ => Iff.rfl, (clientStep_foldl (takeCommandSnapshot e) ops).1,
    (clientStep_foldl (takeCommandSnapshot e) ops).2⟩

end DynGraph
